import Mathlib

/-!
Verification of the document indexing and retrieval engine of the
`files-dup` repository: a shallow embedding of `backend/vector_store.py`
(FAISS-backed flat vector index) and `backend/rag_pipeline.py`
(chunking and retrieval), with theorems settling the frozen claims.

Modelling conventions:
* Python floats are modelled as rationals (`ℚ`).  L2 normalisation
  (`faiss.normalize_L2`) divides by a square root and is therefore a
  floating-point operation with no exact rational counterpart; the model
  represents vectors *as stored in the index*, i.e. the batches handed to
  `add_vectors` and the query handed to `search` stand for the already
  normalised float data.  All algorithmic content (shape checks, ordinal
  metadata join, squared-L2 distances, score conversion, sorting,
  persistence) is modelled exactly.
* Metadata dictionaries are opaque to every operation of the store, so
  they are modelled by an arbitrary token type (`Meta := ℕ`).
* The two persisted artifacts (FAISS index file, metadata JSON file) are
  modelled by a `Disk` record of two `Option` fields; a `none` field is a
  missing file, whose read raises in Python.
* Python text is modelled as `List Char`; Python's signed indices for
  `str.rfind` and slicing are modelled by `pyIdx`.
-/

namespace FilesDup

/-- Metadata entries are opaque dictionaries; the store never inspects
them, so an abstract token type suffices. -/
abbrev Meta := ℕ

/-- Model of `faiss.IndexFlatL2`: its dimension `d` and the list of
stored vectors (in insertion order; `ntotal = vecs.length`). -/
structure FlatIndex where
  d : ℕ
  vecs : List (List ℚ)
deriving DecidableEq

/-- Model of a `VectorStore` instance: the `dimension` attribute, the
FAISS index (never `None` once `__init__` has run), and the metadata
list. -/
structure VectorStore where
  dimension : ℕ
  index : FlatIndex
  metadata : List Meta
deriving DecidableEq

/-- The two persisted files: `faiss_index.index` (dimension and vectors)
and `metadata.json` (the metadata list); `none` means the file does not
exist. -/
structure Disk where
  indexFile : Option (ℕ × List (List ℚ))
  metaFile : Option (List Meta)
deriving DecidableEq

/-- A disk with neither file present. -/
def emptyDisk : Disk := ⟨none, none⟩

/-- A rectangular `numpy` 2-D float array: `cols` is `shape[1]`,
`data.length` is `shape[0]`. -/
structure NDArray where
  cols : ℕ
  data : List (List ℚ)
  hdata : ∀ r ∈ data, r.length = cols

/-- The two `ValueError`s raised by `add_vectors` (the spec's
`DimensionMismatch` and `CountMismatch`). -/
inductive VSError
  | dimensionMismatch
  | countMismatch
deriving DecidableEq

/-- Squared Euclidean distance between two vectors, the raw distance
returned by `faiss.IndexFlatL2.search`. -/
def sqDist (a b : List ℚ) : ℚ :=
  ((a.zip b).map fun p => (p.1 - p.2) * (p.1 - p.2)).sum

/-- `VectorStore.add_vectors` (vector_store.py lines 31-46): dimension
check first, then count check, then append vectors to the index and
extend the metadata list.  The `Except` error corresponds to the raised
`ValueError`, before which nothing has been mutated. -/
def addVectors (s : VectorStore) (v : NDArray) (md : List Meta) :
    Except VSError VectorStore :=
  if v.cols ≠ s.dimension then .error .dimensionMismatch
  else if md.length ≠ v.data.length then .error .countMismatch
  else .ok { s with
              index := { s.index with vecs := s.index.vecs ++ v.data },
              metadata := s.metadata ++ md }

/-- `VectorStore.get_size` (lines 97-101): `index.ntotal` (the index is
never `None` after construction). -/
def getSize (s : VectorStore) : ℕ := s.index.vecs.length

/-- `VectorStore.search` (lines 48-68): on an empty index return `[]`;
otherwise compute the squared L2 distance from the (normalised) query to
every stored vector, take the `min top_k ntotal` nearest in ascending
distance order, and pair each surviving index `idx` with
`metadata[idx]` (guarded by `idx < len(metadata)`) and the similarity
`1 / (1 + distance)`. -/
def vsSearch (s : VectorStore) (q : List ℚ) (topK : ℕ) :
    List (Meta × ℚ) :=
  if s.index.vecs.length = 0 then []
  else
    let scored := (List.range s.index.vecs.length).map
      fun i => (i, sqDist q (s.index.vecs.getD i []))
    let sorted := List.insertionSort (fun a b => a.2 ≤ b.2) scored
    let top := sorted.take (min topK s.index.vecs.length)
    top.filterMap fun p =>
      if p.1 < s.metadata.length then
        some (s.metadata.getD p.1 0, 1 / (1 + p.2))
      else none

/-- `VectorStore.save` (lines 70-80): write both files from the current
index and metadata.  (The `index is None` early return is dead after
`__init__`, where the index is always set.) -/
def saveStore (s : VectorStore) (disk : Disk) : Disk :=
  { disk with
      indexFile := some (s.index.d, s.index.vecs),
      metaFile := some s.metadata }

/-- `VectorStore.load` (lines 82-95): read the index file (a missing
file raises before any mutation), then the metadata file (a missing file
raises after the index was already replaced), then set
`dimension := index.d`.  The `Bool` records success; no count check of
any kind is performed. -/
def loadStep (s : VectorStore) (disk : Disk) : VectorStore × Bool :=
  match disk.indexFile with
  | none => (s, false)
  | some (d, vs) =>
    let s1 := { s with index := ⟨d, vs⟩ }
    match disk.metaFile with
    | none => (s1, false)
    | some ms => ({ s1 with metadata := ms, dimension := d }, true)

/-- `VectorStore.__init__` together with `_initialize_index`
(lines 16-29): metadata starts empty; if both persisted files exist the
store is loaded from them, otherwise a fresh `IndexFlatL2(dimension)` is
created. -/
def mkStore (dim : ℕ) (disk : Disk) : VectorStore :=
  let fresh : VectorStore := ⟨dim, ⟨dim, []⟩, []⟩
  if disk.indexFile.isSome && disk.metaFile.isSome then
    (loadStep fresh disk).1
  else fresh

/-- `VectorStore.clear` (lines 103-107): fresh empty index of the
current dimension, empty metadata, then an immediate `save`. -/
def clearStore (s : VectorStore) (disk : Disk) : VectorStore × Disk :=
  let s1 : VectorStore := ⟨s.dimension, ⟨s.dimension, []⟩, []⟩
  (s1, saveStore s1 disk)

/-- The operations of the vector store, for stating state invariants
over arbitrary operation sequences. -/
inductive VSOp
  | add (v : NDArray) (md : List Meta)
  | search (q : List ℚ) (k : ℕ)
  | save
  | load
  | clear

/-- One operation applied to a (store, disk) state.  A raised
`ValueError` in `add_vectors` and a failed `load` leave the state as the
Python exception leaves it. -/
def applyOp (st : VectorStore × Disk) (op : VSOp) : VectorStore × Disk :=
  match op with
  | .add v md =>
    match addVectors st.1 v md with
    | .ok s1 => (s1, st.2)
    | .error _ => st
  | .search _ _ => st
  | .save => (st.1, saveStore st.1 st.2)
  | .load => ((loadStep st.1 st.2).1, st.2)
  | .clear => clearStore st.1 st.2

/-- A sequence of operations applied in order. -/
def runOps (st : VectorStore × Disk) (ops : List VSOp) :
    VectorStore × Disk :=
  ops.foldl applyOp st

/-- `RAGPipeline.retrieve_context` (rag_pipeline.py lines 122-145),
after the external embedding call: search, keep the results whose score
is at least the similarity threshold, and fall back to the unfiltered
results when that filter removes everything. -/
def retrieveContext (s : VectorStore) (q : List ℚ) (topK : ℕ)
    (threshold : ℚ) : List (Meta × ℚ) :=
  let results := vsSearch s q topK
  let filtered := results.filter fun r => threshold ≤ r.2
  if filtered = [] then results else filtered

/-! ### Chunker (`RAGPipeline.chunk_text`, rag_pipeline.py lines 24-68) -/

/-- Python's conversion of a (possibly negative) slice / `rfind` bound
into an absolute index for a string of length `len`: negative indices
count from the end and are clamped to `0`, nonnegative ones are clamped
to `len`. -/
def pyIdx (len : ℕ) (i : ℤ) : ℕ :=
  if i < 0 then (len + i).toNat else min i.toNat len

/-- Whether pattern `p` occurs in `t` starting at absolute index `i`. -/
def matchAt (t p : List Char) (i : ℕ) : Bool :=
  decide ((t.drop i).take p.length = p)

/-- The rightmost index `i` with `lo ≤ i`, `i + p.length ≤ hi`, at which
`p` occurs in `t` (`none` if there is no occurrence): the search
performed by Python's `str.rfind(p, lo, hi)` on absolute bounds. -/
def rightmostOcc (t p : List Char) (lo hi : ℕ) : Option ℕ :=
  ((List.range hi).filter fun i =>
    decide (lo ≤ i) && decide (i + p.length ≤ hi) && matchAt t p i).max?

/-- `text.rfind(p, a, b)` with Python index conversion; `none` models
the return value `-1`. -/
def pyRfind (t p : List Char) (a b : ℤ) : Option ℕ :=
  rightmostOcc t p (pyIdx t.length a) (pyIdx t.length b)

/-- `text[a:b]` with Python index conversion. -/
def pySlice (t : List Char) (a b : ℤ) : List Char :=
  (t.take (pyIdx t.length b)).drop (pyIdx t.length a)

/-- `str.strip()`: drop whitespace from both ends. -/
def stripChars (l : List Char) : List Char :=
  ((l.dropWhile Char.isWhitespace).reverse.dropWhile Char.isWhitespace).reverse

/-- The `sentence_endings` list of line 48, in its exact order. -/
def sentenceEndings : List (List Char) :=
  [['.', ' '], ['.', '\n'], ['!', ' '], ['!', '\n'], ['?', ' '], ['?', '\n']]

/-- The `for ending in sentence_endings` loop of lines 51-57: try each
pattern in order with `rfind` over `[lo, e0)`; the first pattern found
sets `best_break` to just after its rightmost occurrence and breaks;
otherwise `best_break` keeps the default `e0`. -/
def tryEndings (t : List Char) (lo e0 : ℤ) : List (List Char) → ℤ
  | [] => e0
  | p :: ps =>
    match pyRfind t p lo e0 with
    | some pos => (pos : ℤ) + p.length
    | none => tryEndings t lo e0 ps

/-- Lines 47-59: the adjusted chunk end for a window starting at
`start` with tentative end `e0`, searching the last 100 characters of
the window. -/
def findBreak (t : List Char) (start e0 : ℤ) : ℤ :=
  tryEndings t (max start (e0 - 100)) e0 sentenceEndings

/-- Lines 43-59 combined: tentative end `start + chunk_size`, adjusted
by `findBreak` only when it falls strictly before the end of the text. -/
def chunkEnd (t : List Char) (cs : ℕ) (start : ℤ) : ℤ :=
  let e0 := start + (cs : ℤ)
  if e0 < (t.length : ℤ) then findBreak t start e0 else e0

/-- Line 61: the stripped slice `text[start:end].strip()` of the
current window. -/
def chunkPiece (t : List Char) (cs : ℕ) (start : ℤ) : List Char :=
  stripChars (pySlice t start (chunkEnd t cs start))

/-- Line 66: the next window start, `end - overlap` when the chunk did
not reach the end of the text, else `end`. -/
def chunkNextStart (t : List Char) (cs ov : ℕ) (start : ℤ) : ℤ :=
  let e := chunkEnd t cs start
  if e < (t.length : ℤ) then e - (ov : ℤ) else e

/-- The `while start < len(text)` loop of lines 42-66, with explicit
fuel since the Python loop need not terminate; `none` means the fuel ran
out before the loop exited. -/
def chunkLoop (t : List Char) (cs ov : ℕ) :
    ℕ → ℤ → List (List Char) → Option (List (List Char))
  | 0, _, _ => none
  | fuel + 1, start, acc =>
    if start < (t.length : ℤ) then
      chunkLoop t cs ov fuel (chunkNextStart t cs ov start)
        (if chunkPiece t cs start = [] then acc
         else acc ++ [chunkPiece t cs start])
    else some acc

/-- `RAGPipeline.chunk_text` (lines 24-68): the early return of
lines 36-37 (empty text gives `[]`, text no longer than `chunk_size` is
returned whole and untrimmed as a single chunk), then the chunking
loop. -/
def chunkText (fuel : ℕ) (t : List Char) (cs ov : ℕ) :
    Option (List (List Char)) :=
  if t = [] then some []
  else if t.length ≤ cs then some [t]
  else chunkLoop t cs ov fuel 0 []

/-! ### Specification-side definitions for the chunk-end refinement -/

/-- Whether pattern `p` occurs anywhere in the search window
`[lo, hi)` of `t` (the occurrence lying entirely inside the window). -/
def occursB (t p : List Char) (lo hi : ℕ) : Bool :=
  (List.range hi).any fun i =>
    decide (lo ≤ i) && decide (i + p.length ≤ hi) && matchAt t p i

/-- The chunk-end rule stated over an explicit pattern list: the first
pattern of `ps` that occurs anywhere in the window `[lo, e0)` wins, the
rightmost occurrence of that pattern is used, and the chunk ends
immediately after the terminator; if no pattern occurs, the chunk ends
at the tentative boundary `e0`. -/
def specChunkEndWith (t : List Char) (lo e0 : ℕ)
    (ps : List (List Char)) : ℕ :=
  match ps.find? (fun p => occursB t p lo e0) with
  | none => e0
  | some p =>
    match rightmostOcc t p lo e0 with
    | none => e0
    | some pos => pos + p.length

/-- The declarative chunk-end selection, following the specification's
words: the terminator patterns `". "`, `".\n"`, `"! "`, `"!\n"`,
`"? "`, `"?\n"` are tried in that fixed order over the last 100
characters of the window; the first pattern that occurs anywhere in
that search window wins, the rightmost occurrence of that pattern is
used, and the chunk ends immediately after the terminator; if no
pattern occurs, the chunk ends exactly at `e0 = start + chunk_size`. -/
def specChunkEnd (t : List Char) (start e0 : ℕ) : ℕ :=
  specChunkEndWith t (max start (e0 - 100)) e0 sentenceEndings

/-! ### Theorems -/

/-- C9: for every freshly constructed, never-saved vector store
instance (no persisted files on disk), `size()` returns 0. -/
theorem fresh_store_size_zero (dim : ℕ) :
    getSize (mkStore dim emptyDisk) = 0 := rfl

/-- C5 counterexample: the claim says the single chunk returned for a
short text equals the *trimmed* input, but `chunk_text` on the text
`" a "` with `chunk_size = 10` returns the input untrimmed, which is not
the trimmed text. -/
theorem chunkText_short_not_trimmed :
    [' ', 'a', ' '] ≠ ([] : List Char) ∧
    [' ', 'a', ' '].length ≤ 10 ∧
    chunkText 1 [' ', 'a', ' '] 10 5 = some [[' ', 'a', ' ']] ∧
    chunkText 1 [' ', 'a', ' '] 10 5 ≠ some [stripChars [' ', 'a', ' ']] := by
  decide

/-- C5 amended: for every non-empty text with `len(text) ≤ chunk_size`,
`chunk_text` returns exactly one chunk equal to the *untrimmed* input
text; for empty text it returns the empty sequence. -/
theorem chunkText_short_returns_input (fuel : ℕ) (t : List Char)
    (cs ov : ℕ) :
    (t = [] → chunkText fuel t cs ov = some []) ∧
    (t ≠ [] → t.length ≤ cs → chunkText fuel t cs ov = some [t]) := by
  constructor
  · intro h
    simp [chunkText, h]
  · intro h hlen
    simp [chunkText, h, hlen]

/-- Witness for `chunkText_short_returns_input` at the text `"ab"`. -/
theorem chunkText_short_returns_input_witness :
    chunkText 3 ['a', 'b'] 10 2 = some [['a', 'b']] :=
  (chunkText_short_returns_input 3 ['a', 'b'] 10 2).2 (by decide) (by decide)

/-- C1 counterexample: a persisted store with 2 vectors but only 1
metadata entry loads successfully (`load` raises nothing), refuting the
claim that `load` fails with `CorruptStore` on such a mismatch. -/
theorem load_succeeds_on_count_mismatch :
    (loadStep (mkStore 3 emptyDisk)
      ⟨some (1, [[0], [1]]), some [5]⟩).2 = true ∧
    getSize (loadStep (mkStore 3 emptyDisk)
      ⟨some (1, [[0], [1]]), some [5]⟩).1 = 2 ∧
    (loadStep (mkStore 3 emptyDisk)
      ⟨some (1, [[0], [1]]), some [5]⟩).1.metadata.length = 1 := by
  decide

/-- C1 amended: `load` performs no metadata/vector count validation: it
succeeds whenever both persisted files are readable, even when the
metadata length disagrees with the vector count; on success the loaded
dimension `D` is taken from the persisted index, regardless of the
dimension the instance was constructed with. -/
theorem load_no_count_validation (s : VectorStore) (disk : Disk)
    (d : ℕ) (vs : List (List ℚ)) (ms : List Meta)
    (hidx : disk.indexFile = some (d, vs))
    (hmeta : disk.metaFile = some ms) :
    loadStep s disk = (⟨d, ⟨d, vs⟩, ms⟩, true) := by
  simp [loadStep, hidx, hmeta]

/-- Witness for `load_no_count_validation`: a store constructed with
dimension 7 loads a 2-dimensional persisted index of 1 vector and 3
metadata entries. -/
theorem load_no_count_validation_witness :
    loadStep (mkStore 7 emptyDisk)
      ⟨some (2, [[1, 2]]), some [4, 5, 6]⟩ =
      (⟨2, ⟨2, [[1, 2]]⟩, [4, 5, 6]⟩, true) :=
  load_no_count_validation (mkStore 7 emptyDisk) _ 2 [[1, 2]] [4, 5, 6]
    rfl rfl

/-- C4: `save()` followed by construction of a fresh instance (which
loads the persisted files) yields an index with the same `size()`, the
same dimension `D` (the dimension of the persisted vectors, to which
the fresh instance's `dimension` attribute is also set), and metadata
element-wise equal to the pre-save metadata — for every store state,
every prior disk state and every constructor dimension of the fresh
instance. -/
theorem save_load_roundtrip (s : VectorStore) (disk : Disk) (dim : ℕ) :
    getSize (mkStore dim (saveStore s disk)) = getSize s ∧
    (mkStore dim (saveStore s disk)).index.d = s.index.d ∧
    (mkStore dim (saveStore s disk)).dimension = s.index.d ∧
    (mkStore dim (saveStore s disk)).metadata = s.metadata := by
  simp [mkStore, saveStore, loadStep, getSize]

/-- C10: `add_vectors` is atomic on error: a batch with the wrong
vector dimension fails with the dimension error (checked first, even if
the counts also disagree), a batch with mismatched metadata count fails
with the count error, and in both cases the store and the disk are left
exactly as they were. -/
theorem addVectors_atomic_on_error (s : VectorStore) (disk : Disk)
    (v : NDArray) (md : List Meta) :
    (v.cols ≠ s.dimension →
      addVectors s v md = .error .dimensionMismatch ∧
      applyOp (s, disk) (.add v md) = (s, disk)) ∧
    (v.cols = s.dimension → md.length ≠ v.data.length →
      addVectors s v md = .error .countMismatch ∧
      applyOp (s, disk) (.add v md) = (s, disk)) := by
  constructor
  · intro h
    have hadd : addVectors s v md = .error .dimensionMismatch := by
      simp [addVectors, h]
    exact ⟨hadd, by simp [applyOp, hadd]⟩
  · intro h1 h2
    have hadd : addVectors s v md = .error .countMismatch := by
      simp [addVectors, h1, h2]
    exact ⟨hadd, by simp [applyOp, hadd]⟩

/-- Witness for `addVectors_atomic_on_error`: adding a 1×2 batch with 1
metadata entry to a 3-dimensional store fails with the dimension error
and changes nothing. -/
theorem addVectors_atomic_on_error_witness :
    addVectors (mkStore 3 emptyDisk) ⟨2, [[1, 2]], by decide⟩ [9] =
      .error .dimensionMismatch ∧
    applyOp (mkStore 3 emptyDisk, emptyDisk)
      (.add ⟨2, [[1, 2]], by decide⟩ [9]) = (mkStore 3 emptyDisk, emptyDisk) :=
  (addVectors_atomic_on_error (mkStore 3 emptyDisk) emptyDisk
    ⟨2, [[1, 2]], by decide⟩ [9]).1 (by decide)

/-- Auxiliary disk invariant for C3: the persisted files are either
both absent or both present with equal counts. -/
def diskInv : Disk → Prop
  | ⟨some (_, vs), some ms⟩ => vs.length = ms.length
  | ⟨none, none⟩ => True
  | _ => False

/-- The combined system invariant used to prove C3: the store's vector
count equals its metadata length, together with `diskInv`. -/
def sysInv (st : VectorStore × Disk) : Prop :=
  st.1.index.vecs.length = st.1.metadata.length ∧ diskInv st.2

theorem addVectors_ok_lengths (s : VectorStore) (v : NDArray)
    (md : List Meta) (s' : VectorStore)
    (h : addVectors s v md = .ok s') :
    s'.index.vecs.length = s.index.vecs.length + v.data.length ∧
    s'.metadata.length = s.metadata.length + v.data.length := by
  unfold addVectors at h
  split at h
  · exact absurd h (by simp)
  · split at h
    · exact absurd h (by simp)
    · rename_i hcnt
      rw [not_not] at hcnt
      cases h
      simp [hcnt]

theorem sysInv_applyOp (s : VectorStore) (disk : Disk) (op : VSOp)
    (h : sysInv (s, disk)) : sysInv (applyOp (s, disk) op) := by
  obtain ⟨hs, hd⟩ := h
  cases op with
  | add v md =>
    cases hadd : addVectors s v md with
    | ok s1 =>
      obtain ⟨h1, h2⟩ := addVectors_ok_lengths s v md s1 hadd
      exact ⟨by simp [applyOp, hadd, h1, h2, hs], by simpa [applyOp, hadd]⟩
    | error e => simpa [sysInv, applyOp, hadd] using ⟨hs, hd⟩
  | search q k => exact ⟨hs, hd⟩
  | save => exact ⟨hs, by simpa [applyOp, saveStore, diskInv] using hs⟩
  | load =>
    obtain ⟨idxf, metf⟩ := disk
    cases idxf with
    | none =>
      cases metf with
      | none => exact ⟨hs, hd⟩
      | some ms => exact absurd hd (by simp [diskInv])
    | some p =>
      obtain ⟨d, vs⟩ := p
      cases metf with
      | none => exact absurd hd (by simp [diskInv])
      | some ms =>
        have hlen : vs.length = ms.length := hd
        exact ⟨by simpa [applyOp, loadStep] using hlen, hd⟩
  | clear =>
    exact ⟨by simp [applyOp, clearStore],
      by simp [applyOp, clearStore, saveStore, diskInv]⟩

theorem sysInv_runOps (ops : List VSOp) (st : VectorStore × Disk)
    (h : sysInv st) : sysInv (runOps st ops) := by
  induction ops generalizing st with
  | nil => exact h
  | cons op ops ih =>
    exact ih (applyOp st op) (sysInv_applyOp st.1 st.2 op h)

/-- C3: for every constructor dimension and every sequence of store
operations starting from a newly constructed store (no persisted files
on disk), the number of vectors stored in the index equals the length of
the metadata array — the invariant holds for the fresh store (the empty
sequence) and is preserved by `add`, `search`, `save`, `load` and
`clear`. -/
theorem size_eq_metadata_length_invariant (dim : ℕ) (ops : List VSOp) :
    getSize (runOps (mkStore dim emptyDisk, emptyDisk) ops).1 =
      (runOps (mkStore dim emptyDisk, emptyDisk) ops).1.metadata.length := by
  refine (sysInv_runOps ops (mkStore dim emptyDisk, emptyDisk) ?_).1
  unfold sysInv
  exact ⟨rfl, trivial⟩

/-- C2: `retrieve` applies a soft threshold: if at least one of the
`top_k` search results reaches the threshold, exactly the results with
`score ≥ t` are returned (a filter of the result list, hence in their
original order); if every result scores below `t`, the full unfiltered
result list is returned. -/
theorem retrieve_threshold_fallback (s : VectorStore) (q : List ℚ)
    (k : ℕ) (t : ℚ) :
    ((∃ r ∈ vsSearch s q k, t ≤ r.2) →
      retrieveContext s q k t =
        (vsSearch s q k).filter fun r => t ≤ r.2) ∧
    ((∀ r ∈ vsSearch s q k, r.2 < t) →
      retrieveContext s q k t = vsSearch s q k) := by
  constructor
  · rintro ⟨r, hr, hrt⟩
    have hne : ((vsSearch s q k).filter fun r => t ≤ r.2) ≠ [] := by
      rw [ne_eq, List.filter_eq_nil_iff]
      push_neg
      exact ⟨r, hr, by simpa using hrt⟩
    simp [retrieveContext, hne]
  · intro h
    have hnil : ((vsSearch s q k).filter fun r => t ≤ r.2) = [] := by
      rw [List.filter_eq_nil_iff]
      intro a ha
      simpa using not_le.mpr (h a ha)
    simp [retrieveContext, hnil]

/-- Witness for `retrieve_threshold_fallback`: an index of 3 vectors
all scoring below the threshold 1/2 for the query; `retrieve` with
`top_k = 3` returns all 3 unfiltered results. -/
theorem retrieve_threshold_fallback_witness :
    retrieveContext (⟨1, ⟨1, [[0], [3], [4]]⟩, [0, 1, 2]⟩ : VectorStore)
        [10] 3 (1 / 2) =
      vsSearch (⟨1, ⟨1, [[0], [3], [4]]⟩, [0, 1, 2]⟩ : VectorStore)
        [10] 3 ∧
    (vsSearch (⟨1, ⟨1, [[0], [3], [4]]⟩, [0, 1, 2]⟩ : VectorStore)
        [10] 3).length = 3 :=
  ⟨(retrieve_threshold_fallback
      (⟨1, ⟨1, [[0], [3], [4]]⟩, [0, 1, 2]⟩ : VectorStore)
      [10] 3 (1 / 2)).2 (by with_unfolding_all decide),
    by with_unfolding_all decide⟩

/-- A text on which `chunk_text(.., chunk_size = 10, overlap = 5)`
loops forever: `"abc. defgh"` followed by twenty `x`s.  The window
`[0, 10)` contains the terminator `". "` at position 3, so the chunk
end is 5 and the next start is `5 - 5 = 0` again. -/
def divergentText : List Char :=
  ['a', 'b', 'c', '.', ' ', 'd', 'e', 'f', 'g', 'h'] ++
    List.replicate 20 'x'

theorem chunkLoop_divergentText_step (n : ℕ) (acc : List (List Char)) :
    chunkLoop divergentText 10 5 (n + 1) 0 acc =
      chunkLoop divergentText 10 5 n 0 (acc ++ [['a', 'b', 'c', '.']]) := by
  have h1 : (0 : ℤ) < (divergentText.length : ℤ) := by decide
  have h2 : chunkPiece divergentText 10 0 = ['a', 'b', 'c', '.'] := by
    decide
  have h3 : chunkNextStart divergentText 10 5 0 = 0 := by decide
  simp only [chunkLoop, if_pos h1, h2, h3]
  simp

theorem chunkLoop_divergentText_none (n : ℕ) (acc : List (List Char)) :
    chunkLoop divergentText 10 5 n 0 acc = none := by
  induction n generalizing acc with
  | zero => rfl
  | succ n ih =>
    rw [chunkLoop_divergentText_step n acc]
    exact ih _

/-- C7 (code bug): `chunk_size = 10 > 0` and `overlap = 5` with
`0 ≤ 5 < 10` is a configuration the claim says always terminates, yet
on `divergentText` the loop's window start returns to 0 on every
iteration (sentence break at 5, next start `5 - 5 = 0`), so
`chunk_text` never terminates: the fuelled model runs out of any amount
of fuel. -/
theorem chunkText_diverges_on_valid_config :
    0 < 10 ∧ 5 < 10 ∧
      ∀ fuel, chunkText fuel divergentText 10 5 = none := by
  refine ⟨by decide, by decide, fun fuel => ?_⟩
  have h1 : ¬divergentText = [] := by decide
  have h2 : ¬divergentText.length ≤ 10 := by decide
  unfold chunkText
  rw [if_neg h1, if_neg h2]
  exact chunkLoop_divergentText_none fuel []

theorem sqDist_nonneg (a b : List ℚ) : 0 ≤ sqDist a b := by
  refine List.sum_nonneg ?_
  intro x hx
  obtain ⟨p, _, rfl⟩ := List.mem_map.mp hx
  exact mul_self_nonneg _

theorem filterMap_ite_eq_filter_map {α β : Type} (c : α → Prop)
    [DecidablePred c] (f : α → β) (l : List α) :
    (l.filterMap fun a => if c a then some (f a) else none) =
      (l.filter fun a => decide (c a)).map f := by
  induction l with
  | nil => rfl
  | cons a l ih =>
    by_cases h : c a <;>
      simp [List.filterMap_cons, List.filter_cons, h, ih]

/-- C8: for every index state, query and `top_k`, `search` returns at
most `min top_k (index size)` results; on an empty index it returns the
empty sequence; every returned score is `1 / (1 + d)` for `d` the
squared Euclidean distance between the (normalised) query and the
(normalised) stored vector joined to that result's metadata, hence
every score lies in `(0, 1]`; and the results are ordered by descending
score, i.e. ascending distance. -/
theorem search_spec (s : VectorStore) (q : List ℚ) (k : ℕ) :
    (vsSearch s q k).length ≤ min k (getSize s) ∧
    (getSize s = 0 → vsSearch s q k = []) ∧
    (∀ r ∈ vsSearch s q k, ∃ i, i < s.index.vecs.length ∧
      i < s.metadata.length ∧
      r = (s.metadata.getD i 0,
        1 / (1 + sqDist q (s.index.vecs.getD i [])))) ∧
    (∀ r ∈ vsSearch s q k, 0 < r.2 ∧ r.2 ≤ 1) ∧
    (vsSearch s q k).Pairwise fun a b => b.2 ≤ a.2 := by
  by_cases hn : s.index.vecs.length = 0
  · constructor
    · simp [vsSearch, hn]
    · exact ⟨fun _ => by simp [vsSearch, hn],
        fun r hr => absurd hr (by simp [vsSearch, hn]),
        fun r hr => absurd hr (by simp [vsSearch, hn]),
        by simp [vsSearch, hn]⟩
  · have hsearch : vsSearch s q k =
        ((List.insertionSort (fun a b => a.2 ≤ b.2)
            ((List.range s.index.vecs.length).map
              fun i => (i, sqDist q (s.index.vecs.getD i [])))).take
          (min k s.index.vecs.length)).filterMap
          (fun p => if p.1 < s.metadata.length then
            some (s.metadata.getD p.1 0, 1 / (1 + p.2))
          else none) := by
      simp [vsSearch, hn]
    have hmem_base : ∀ p : ℕ × ℚ,
        p ∈ (List.insertionSort (fun a b => a.2 ≤ b.2)
            ((List.range s.index.vecs.length).map
              fun i => (i, sqDist q (s.index.vecs.getD i [])))).take
          (min k s.index.vecs.length) →
        p.1 < s.index.vecs.length ∧
          p.2 = sqDist q (s.index.vecs.getD p.1 []) := by
      intro p hp
      have hp2 := (List.perm_insertionSort
        (fun a b : ℕ × ℚ => a.2 ≤ b.2) _).mem_iff.mp
        (List.mem_of_mem_take hp)
      obtain ⟨i, hi, rfl⟩ := List.mem_map.mp hp2
      exact ⟨List.mem_range.mp hi, rfl⟩
    have hmem : ∀ r ∈ vsSearch s q k, ∃ i, i < s.index.vecs.length ∧
        i < s.metadata.length ∧
        r = (s.metadata.getD i 0,
          1 / (1 + sqDist q (s.index.vecs.getD i []))) := by
      intro r hr
      rw [hsearch] at hr
      obtain ⟨p, hp, hpr⟩ := List.mem_filterMap.mp hr
      obtain ⟨hplt, hpd⟩ := hmem_base p hp
      by_cases hc : p.1 < s.metadata.length
      · rw [if_pos hc] at hpr
        obtain rfl := Option.some_injective _ hpr
        exact ⟨p.1, hplt, hc, by rw [hpd]⟩
      · rw [if_neg hc] at hpr
        cases hpr
    refine ⟨?_, fun h0 => absurd h0 hn, hmem, ?_, ?_⟩
    · rw [hsearch]
      calc _ ≤ _ := List.length_filterMap_le _ _
        _ ≤ min k s.index.vecs.length := by
            simp [List.length_take_le]
    · intro r hr
      obtain ⟨i, _, _, rfl⟩ := hmem r hr
      have hd : (0:ℚ) ≤ sqDist q (s.index.vecs.getD i []) :=
        sqDist_nonneg _ _
      have hpos : (0:ℚ) < 1 + sqDist q (s.index.vecs.getD i []) := by
        linarith
      constructor
      · exact one_div_pos.mpr hpos
      · rw [div_le_one hpos]
        linarith
    · rw [hsearch, filterMap_ite_eq_filter_map
        (fun p : ℕ × ℚ => p.1 < s.metadata.length)]
      rw [List.pairwise_map]
      have hsorted : (List.insertionSort (fun a b => a.2 ≤ b.2)
          ((List.range s.index.vecs.length).map
            fun i => (i, sqDist q (s.index.vecs.getD i [])))).Pairwise
          fun a b : ℕ × ℚ => a.2 ≤ b.2 := by
        haveI : IsTotal (ℕ × ℚ) (fun a b => a.2 ≤ b.2) :=
          ⟨fun a b => le_total a.2 b.2⟩
        haveI : IsTrans (ℕ × ℚ) (fun a b => a.2 ≤ b.2) :=
          ⟨fun _ _ _ h1 h2 => le_trans h1 h2⟩
        exact List.sorted_insertionSort _ _
      have htake := hsorted.sublist (List.take_sublist
        (min k s.index.vecs.length) _)
      have hfil := htake.sublist
        (@List.filter_sublist (ℕ × ℚ)
          (fun p => decide (p.1 < s.metadata.length)) _)
      refine hfil.imp_of_mem ?_
      intro a b ha hb hab
      have ha2 := (hmem_base a (List.mem_of_mem_filter ha)).2
      have hd : (0:ℚ) ≤ a.2 := ha2 ▸ sqDist_nonneg _ _
      have hpos : (0:ℚ) < 1 + a.2 := by linarith
      exact one_div_le_one_div_of_le hpos (by linarith)

/-- Witness for `search_spec`: on a freshly constructed empty store the
search returns the empty list. -/
theorem search_spec_witness :
    vsSearch (mkStore 2 emptyDisk) [1, 2] 3 = [] :=
  (search_spec (mkStore 2 emptyDisk) [1, 2] 3).2.1 rfl

theorem pyIdx_coe (len n : ℕ) (h : n ≤ len) : pyIdx len (n : ℤ) = n := by
  unfold pyIdx
  rw [if_neg (show ¬((n : ℤ) < 0) by omega)]
  omega

theorem occursB_eq_isSome_rightmostOcc (t p : List Char) (lo hi : ℕ) :
    occursB t p lo hi = (rightmostOcc t p lo hi).isSome := by
  unfold occursB rightmostOcc
  cases hf : (List.range hi).filter
      (fun i => decide (lo ≤ i) && decide (i + p.length ≤ hi) &&
        matchAt t p i) with
  | nil =>
    simp only [List.max?_nil, Option.isSome_none]
    exact List.any_eq_false.mpr (List.filter_eq_nil_iff.mp hf)
  | cons a as =>
    have ha : a ∈ (List.range hi).filter
        (fun i => decide (lo ≤ i) && decide (i + p.length ≤ hi) &&
          matchAt t p i) := by
      rw [hf]; exact List.mem_cons_self a as
    obtain ⟨hmem, hpred⟩ := List.mem_filter.mp ha
    have h1 : ((List.range hi).any
        (fun i => decide (lo ≤ i) && decide (i + p.length ≤ hi) &&
          matchAt t p i)) = true :=
      List.any_eq_true.mpr ⟨a, hmem, hpred⟩
    have h2 : ((a :: as).max?).isSome = true := by
      cases hm : (a :: as).max? with
      | none => exact absurd (List.max?_eq_none_iff.mp hm) (by simp)
      | some m => rfl
    rw [h1, h2]

theorem tryEndings_eq_specWith (t : List Char) (lo e0 : ℕ)
    (hlo : lo ≤ t.length) (he0 : e0 ≤ t.length)
    (ps : List (List Char)) :
    tryEndings t (lo : ℤ) (e0 : ℤ) ps =
      (specChunkEndWith t lo e0 ps : ℤ) := by
  induction ps with
  | nil => rfl
  | cons p ps ih =>
    have hconv : pyRfind t p (lo : ℤ) (e0 : ℤ) = rightmostOcc t p lo e0 := by
      unfold pyRfind
      rw [pyIdx_coe _ _ hlo, pyIdx_coe _ _ he0]
    cases ho : rightmostOcc t p lo e0 with
    | some pos =>
      have hocc : occursB t p lo e0 = true := by
        rw [occursB_eq_isSome_rightmostOcc, ho]; rfl
      have hfind : List.find? (fun q => occursB t q lo e0) (p :: ps) =
          some p := List.find?_cons_of_pos _ hocc
      simp only [tryEndings, hconv, ho, specChunkEndWith, hfind]
      push_cast
      ring
    | none =>
      have hocc : ¬((fun q => occursB t q lo e0) p = true) := by
        simp only []
        rw [occursB_eq_isSome_rightmostOcc, ho]
        simp
      have hfind : List.find? (fun q => occursB t q lo e0) (p :: ps) =
          List.find? (fun q => occursB t q lo e0) ps :=
        List.find?_cons_of_neg _ hocc
      simp only [tryEndings, hconv, ho, specChunkEndWith, hfind]
      simpa [specChunkEndWith] using ih

theorem findBreak_eq_specChunkEnd (t : List Char) (start cs : ℕ)
    (h : start + cs < t.length) :
    findBreak t (start : ℤ) ((start + cs : ℕ) : ℤ) =
      (specChunkEnd t start (start + cs) : ℤ) := by
  unfold findBreak specChunkEnd
  have hmax : max (start : ℤ) (((start + cs : ℕ) : ℤ) - 100) =
      ((max start (start + cs - 100) : ℕ) : ℤ) := by omega
  rw [hmax]
  exact tryEndings_eq_specWith t _ _ (by omega) (by omega) sentenceEndings

/-- C6: for every window of `chunk_text` whose tentative end
`start + chunk_size` falls strictly before the end of the text, the
chunk end computed by the code (`chunkEnd`, i.e. lines 43-59 with the
terminator loop) equals the declarative rule of the specification
(`specChunkEnd`): the terminator patterns are tried in their fixed
order over the last 100 characters of the window, the first pattern
occurring anywhere in that search window wins, its rightmost
occurrence is used and the chunk ends immediately after it; with no
occurrence the chunk ends exactly at `start + chunk_size`. -/
theorem chunkEnd_eq_specChunkEnd (t : List Char) (start cs : ℕ)
    (h : start + cs < t.length) :
    chunkEnd t cs (start : ℤ) = (specChunkEnd t start (start + cs) : ℤ) := by
  unfold chunkEnd
  have he : (start : ℤ) + (cs : ℤ) = ((start + cs : ℕ) : ℤ) := by
    push_cast
    ring
  rw [he, if_pos (show ((start + cs : ℕ) : ℤ) < (t.length : ℤ) by omega)]
  exact findBreak_eq_specChunkEnd t start cs h

/-- Witness for `chunkEnd_eq_specChunkEnd` on the text `"ab. xxxxxxxx"`
with `start = 0`, `chunk_size = 10`: both sides select the break just
after the `". "` at position 2. -/
theorem chunkEnd_eq_specChunkEnd_witness :
    chunkEnd ['a', 'b', '.', ' ', 'x', 'x', 'x', 'x', 'x', 'x', 'x', 'x']
        10 ((0 : ℕ) : ℤ) =
      (specChunkEnd
        ['a', 'b', '.', ' ', 'x', 'x', 'x', 'x', 'x', 'x', 'x', 'x']
        0 (0 + 10) : ℤ) :=
  chunkEnd_eq_specChunkEnd
    ['a', 'b', '.', ' ', 'x', 'x', 'x', 'x', 'x', 'x', 'x', 'x'] 0 10
    (by decide)

end FilesDup
